import Mathlib

/-!
Shallow embedding of the team orchestration engine of langchain-rust:
the configuration layer (src/agent/team/config.rs) and the execution
layer (src/agent/team/execution.rs).

Modelling conventions:
* PromptArgs (a HashMap from String to serde_json Value in the source) is
  modelled as an association list in which insertion prepends; lookup takes
  the first matching key, which gives the overwrite semantics of HashMap
  insert extensionally.
* JSON values are modelled by JValue: the executor only ever inserts plain
  strings and arrays of pairs of agent id and output, so those two shapes
  are the constructors.
* A child agent (Arc dyn Agent in the source) is modelled by AgentHandle:
  its one-shot plan call becomes a function from the input map to either an
  AgentEvent or an error message. The opaque trace argument
  (intermediate steps) is threaded through unchanged by the executor and
  never inspected, so it is omitted. Wall-clock behaviour of the async call
  is modelled by runTimeMs, the number of milliseconds the invocation
  takes, which the timeout guards compare against.
* Fallible Rust functions returning Result become Except String.
-/

/-- JSON values that occur in the team executor input maps. -/
inductive JValue where
  | vStr : String → JValue
  | vPairs : List (String × String) → JValue
deriving DecidableEq, Repr

/-- Input map handed to agents; association list with first-match lookup. -/
abbrev PromptArgs := List (String × JValue)

/-- First-match lookup, the extensional behaviour of HashMap get. -/
def lookupA : PromptArgs → String → Option JValue
  | [], _ => none
  | (k, v) :: rest, key => if k = key then some v else lookupA rest key

/-- HashMap insert: the new binding shadows any older one. -/
def insertA (m : PromptArgs) (k : String) (v : JValue) : PromptArgs :=
  (k, v) :: m

/-- Events a child agent can return from its plan call. -/
inductive AgentEvent where
  | Finish : String → AgentEvent
  | Action : AgentEvent
deriving DecidableEq, Repr

/-- The callable behaviour of a child agent: the plan call and the
wall-clock duration of that call in milliseconds. -/
structure AgentHandle where
  plan : PromptArgs → Except String AgentEvent
  runTimeMs : PromptArgs → Nat

/-- One step of the Hybrid execution pattern (config.rs, ExecutionStep). -/
structure ExecutionStep where
  agent_ids : List String
  concurrent : Bool
  dependencies : List Nat
deriving Repr

/-- Execution pattern for team agents (config.rs, ExecutionPattern). -/
inductive ExecutionPattern where
  | Concurrent : ExecutionPattern
  | Sequential : ExecutionPattern
  | Hybrid : List ExecutionStep → ExecutionPattern

/-- Configuration of one child agent (config.rs, ChildAgentConfig).
Timeouts are in seconds, as in the source. -/
structure ChildAgentConfig where
  id : String
  agent : AgentHandle
  timeout : Option Nat
  critical : Bool
  is_team_agent : Bool

/-- Team-wide configuration (config.rs, TeamAgentConfig). The source field
named prefix is rendered prefix_str because prefix is a Lean keyword. -/
structure TeamAgentConfig where
  child_agents : List ChildAgentConfig
  execution_pattern : ExecutionPattern
  max_iterations : Option Int
  break_on_error : Bool
  global_timeout : Option Nat
  prefix_str : Option String

/-- Default for TeamAgentConfig (config.rs, impl Default). -/
def TeamAgentConfig.default : TeamAgentConfig :=
  { child_agents := []
    execution_pattern := .Sequential
    max_iterations := some 10
    break_on_error := true
    global_timeout := some 300
    prefix_str := none }

/-- TeamAgentConfig::new simply takes the default. -/
def TeamAgentConfig.new : TeamAgentConfig :=
  TeamAgentConfig.default

/-- ChildAgentConfig::new (config.rs): no timeout, critical, not a team. -/
def ChildAgentConfig.new (id : String) (agent : AgentHandle) : ChildAgentConfig :=
  { id := id
    agent := agent
    timeout := none
    critical := true
    is_team_agent := false }

/-- The HashSet-insert loop of validate that finds the first child id that
was already seen; seen collects the ids of the children scanned so far. -/
def firstDupAux : List String → List String → Option String
  | [], _ => none
  | id :: rest, seen => if id ∈ seen then some id else firstDupAux rest (id :: seen)

/-- First id in the list that repeats an earlier one, if any. -/
def firstDup (ids : List String) : Option String :=
  firstDupAux ids []

/-- The per-step checks of validate: first an unknown agent id inside the
step, then a dependency index that is not strictly smaller than the index
of the step itself. -/
def checkStep (children : List ChildAgentConfig) (idx : Nat) (step : ExecutionStep) :
    Except String Unit :=
  match step.agent_ids.find? (fun id => !(children.any (fun c => c.id == id))) with
  | some id => .error ("Unknown agent ID in execution step: " ++ id)
  | none =>
    match step.dependencies.find? (fun dep => decide (dep ≥ idx)) with
    | some dep =>
      .error ("Invalid dependency: step " ++ toString idx ++ " cannot depend on step "
        ++ toString dep ++ " (must be earlier)")
    | none => .ok ()

/-- The loop of validate over the enumerated steps. -/
def validateSteps (children : List ChildAgentConfig) :
    Nat → List ExecutionStep → Except String Unit
  | _, [] => .ok ()
  | idx, step :: rest =>
    match checkStep children idx step with
    | .error e => .error e
    | .ok _ => validateSteps children (idx + 1) rest

/-- The coverage check of validate: every child id must appear in some step. -/
def validateCoverage (children : List ChildAgentConfig) (steps : List ExecutionStep) :
    Except String Unit :=
  match children.find? (fun c => !(steps.any (fun s => s.agent_ids.any (fun id => id == c.id)))) with
  | some c => .error ("Agent " ++ c.id ++ " is not included in any execution step")
  | none => .ok ()

/-- TeamAgentConfig::validate (config.rs). -/
def TeamAgentConfig.validate (cfg : TeamAgentConfig) : Except String Unit :=
  if cfg.child_agents.isEmpty then
    .error "Team agent must have at least one child agent"
  else
    match firstDup (cfg.child_agents.map (fun c => c.id)) with
    | some id => .error ("Duplicate agent ID: " ++ id)
    | none =>
      match cfg.execution_pattern with
      | .Hybrid steps =>
        match validateSteps cfg.child_agents 0 steps with
        | .error e => .error e
        | .ok _ => validateCoverage cfg.child_agents steps
      | _ => .ok ()

/-- Result of one child agent invocation (execution.rs, ChildAgentResult). -/
structure ChildAgentResult where
  agent_id : String
  output : String
  success : Bool
  error : Option String
  execution_time_ms : Nat
deriving DecidableEq, Repr

/-- Aggregated result of a team run (execution.rs, TeamExecutionResult). -/
structure TeamExecutionResult where
  child_results : List ChildAgentResult
  final_output : String
  success : Bool
  total_execution_time_ms : Nat
deriving DecidableEq, Repr

/-- TeamExecutor::execute_child_agent (execution.rs). The inner future maps
a Finish event to a successful result, an Action event to a hard contract
error, and a plan error either to a hard error (critical child) or to a
recorded failed result (non-critical child). If a per-child timeout is set
and the invocation takes longer, the whole invocation is replaced by a hard
timeout error naming the child id and the configured duration. -/
def execute_child_agent (child : ChildAgentConfig) (inputs : PromptArgs) :
    Except String ChildAgentResult :=
  let inner : Except String ChildAgentResult :=
    match child.agent.plan inputs with
    | .ok (.Finish out) =>
      .ok { agent_id := child.id
            output := out
            success := true
            error := none
            execution_time_ms := child.agent.runTimeMs inputs }
    | .ok .Action =>
      .error "Child agent returned Action instead of Finish"
    | .error e =>
      if child.critical then
        .error e
      else
        .ok { agent_id := child.id
              output := "Error: " ++ e
              success := false
              error := some e
              execution_time_ms := child.agent.runTimeMs inputs }
  match child.timeout with
  | some t =>
    if child.agent.runTimeMs inputs > t * 1000 then
      .error ("Agent " ++ child.id ++ " timed out after " ++ toString t ++ " seconds")
    else
      inner
  | none => inner

/-- Per-result line of aggregate_results: the plain entry for a success,
the ERROR entry for a failure. -/
def entryString (r : ChildAgentResult) : String :=
  if r.success then
    r.agent_id ++ ": " ++ r.output
  else
    r.agent_id ++ ": ERROR - " ++ (r.error.getD "Unknown error")

/-- TeamExecutor::aggregate_results (execution.rs): success is the
conjunction of the per-result flags; the final output joins, with a blank
line, the plain entries when everything succeeded and the success-or-ERROR
entries otherwise. The total time is left 0, to be set by the caller. -/
def aggregate_results (results : List ChildAgentResult) :
    Except String TeamExecutionResult :=
  let success := results.all (fun r => r.success)
  let final_output :=
    if success then
      String.intercalate "\n\n" (results.map (fun r => r.agent_id ++ ": " ++ r.output))
    else
      String.intercalate "\n\n" (results.map entryString)
  .ok { child_results := results
        final_output := final_output
        success := success
        total_execution_time_ms := 0 }

/-- try_join_all: the collected list in launch order if every future
succeeds, the first error otherwise. -/
def collectExcept {α : Type} : List (Except String α) → Except String (List α)
  | [] => .ok []
  | .error e :: _ => .error e
  | .ok a :: rest =>
    match collectExcept rest with
    | .error e => .error e
    | .ok ys => .ok (a :: ys)

/-- Wall-clock resolution time of one child inside a fan-out: a timed-out
invocation is cancelled when the guard fires. -/
def childResolveMs (c : ChildAgentConfig) (inputs : PromptArgs) : Nat :=
  match c.timeout with
  | some t => min (c.agent.runTimeMs inputs) (t * 1000)
  | none => c.agent.runTimeMs inputs

/-- Wall clock of the whole parallel fan-out: the children run in parallel,
so the batch resolves when the last of them does. -/
def batchTimeMs (children : List ChildAgentConfig) (inputs : PromptArgs) : Nat :=
  (children.map (fun c => childResolveMs c inputs)).foldr max 0

/-- TeamExecutor::execute_concurrent (execution.rs): launch every child on
an identical copy of the inputs, join them with try_join_all, and wrap the
join in the global timeout when one is configured. -/
def TeamExecutor.execute_concurrent (cfg : TeamAgentConfig) (inputs : PromptArgs) :
    Except String TeamExecutionResult :=
  match cfg.global_timeout with
  | some g =>
    if batchTimeMs cfg.child_agents inputs > g * 1000 then
      .error "Global timeout exceeded"
    else
      match collectExcept (cfg.child_agents.map (fun c => execute_child_agent c inputs)) with
      | .error e => .error e
      | .ok rs => aggregate_results rs
  | none =>
    match collectExcept (cfg.child_agents.map (fun c => execute_child_agent c inputs)) with
    | .error e => .error e
    | .ok rs => aggregate_results rs

/-- The two derived keys the sequential loop adds after each child: the
output of the child that just ran and its id. -/
def nextSeqInput (inp : PromptArgs) (r : ChildAgentResult) : PromptArgs :=
  insertA (insertA inp "previous_agent_output" (.vStr r.output))
    "previous_agent_id" (.vStr r.agent_id)

/-- The loop body of TeamExecutor::execute_sequential (execution.rs): run
the children in order, thread the derived keys, propagate a hard error
immediately, and stop after a recorded failure when break_on_error is set
(the failed result itself is kept). -/
def runSequential (boe : Bool) : List ChildAgentConfig → PromptArgs →
    Except String (List ChildAgentResult)
  | [], _ => .ok []
  | c :: rest, inp =>
    match execute_child_agent c inp with
    | .error e => .error e
    | .ok r =>
      if boe && !r.success then
        .ok [r]
      else
        match runSequential boe rest (nextSeqInput inp r) with
        | .error e => .error e
        | .ok rs => .ok (r :: rs)

/-- TeamExecutor::execute_sequential (execution.rs). -/
def TeamExecutor.execute_sequential (cfg : TeamAgentConfig) (inputs : PromptArgs) :
    Except String TeamExecutionResult :=
  match runSequential cfg.break_on_error cfg.child_agents inputs with
  | .error e => .error e
  | .ok rs => aggregate_results rs

/-- Decimal digit of a character; inverse of Nat.digitChar below 10. -/
def charDigit : Char → Nat
  | '0' => 0 | '1' => 1 | '2' => 2 | '3' => 3 | '4' => 4
  | '5' => 5 | '6' => 6 | '7' => 7 | '8' => 8 | '9' => 9
  | _ => 10

/-- Decimal rendering of a natural number, the effect of the Rust format
macro on a number. Defined through Nat.digits (most significant digit
first) so that injectivity is provable. -/
def natRepr (n : Nat) : String :=
  if n = 0 then "0" else ((Nat.digits 10 n).reverse.map Nat.digitChar).asString

/-- The key under which a dependency of a Hybrid step is injected:
step_(index)_outputs, as formatted in execute_hybrid. -/
def depKey (d : Nat) : String :=
  "step_" ++ natRepr d ++ "_outputs"

/-- The dependency-injection loop at the head of each Hybrid step
(execution.rs, execute_hybrid): for every declared dependency index, in
declaration order, insert the recorded (agent id, output) pairs of that
step under its scoped key; a dependency with no recorded results is
skipped. stepOutputs lists the recorded results of the steps already run,
in step order. -/
def hybridStepInput (inputs : PromptArgs) (stepOutputs : List (List ChildAgentResult))
    (deps : List Nat) : PromptArgs :=
  deps.foldl
    (fun si dep =>
      match stepOutputs.get? dep with
      | some rs => insertA si (depKey dep) (.vPairs (rs.map (fun r => (r.agent_id, r.output))))
      | none => si)
    inputs

/-- The step loop of TeamExecutor::execute_hybrid (execution.rs): per step,
build the step input from the declared dependencies, resolve the step
agents by id, run them concurrently (try_join_all) or sequentially within
the step, record the step results, and stop after the first recorded
failure when break_on_error is set. -/
def runHybrid (children : List ChildAgentConfig) (boe : Bool) (inputs : PromptArgs) :
    List ExecutionStep → List (List ChildAgentResult) → List ChildAgentResult →
    Except String (List ChildAgentResult)
  | [], _, acc => .ok acc
  | step :: rest, stepOutputs, acc =>
    let step_input := hybridStepInput inputs stepOutputs step.dependencies
    let step_agents := step.agent_ids.filterMap (fun id => children.find? (fun c => c.id == id))
    let stepResultsE :=
      if step.concurrent then
        collectExcept (step_agents.map (fun c => execute_child_agent c step_input))
      else
        runSequential boe step_agents step_input
    match stepResultsE with
    | .error e => .error e
    | .ok stepResults =>
      let acc2 := acc ++ stepResults
      if boe && acc2.any (fun r => !r.success) then
        .ok acc2
      else
        runHybrid children boe inputs rest (stepOutputs ++ [stepResults]) acc2

/-- TeamExecutor::execute_hybrid (execution.rs). -/
def TeamExecutor.execute_hybrid (cfg : TeamAgentConfig) (steps : List ExecutionStep)
    (inputs : PromptArgs) : Except String TeamExecutionResult :=
  match runHybrid cfg.child_agents cfg.break_on_error inputs steps [] [] with
  | .error e => .error e
  | .ok rs => aggregate_results rs

/-- TeamExecutor::execute (execution.rs): dispatch on the configured
pattern, then overwrite the total duration of a successful result with the
single top-level wall-clock measurement. That measurement (the elapsed
milliseconds of the whole call, an observation of the environment) enters
the model as the parameter totalTimeMs. -/
def TeamExecutor.dispatch (cfg : TeamAgentConfig) (inputs : PromptArgs) :
    Except String TeamExecutionResult :=
  match cfg.execution_pattern with
  | .Concurrent => TeamExecutor.execute_concurrent cfg inputs
  | .Sequential => TeamExecutor.execute_sequential cfg inputs
  | .Hybrid steps => TeamExecutor.execute_hybrid cfg steps inputs

/-- The tail of TeamExecutor::execute: overwrite the total duration of a
successful dispatch with the top-level measurement, propagate errors. -/
def TeamExecutor.execute (cfg : TeamAgentConfig) (inputs : PromptArgs)
    (totalTimeMs : Nat) : Except String TeamExecutionResult :=
  match TeamExecutor.dispatch cfg inputs with
  | .ok r => .ok { r with total_execution_time_ms := totalTimeMs }
  | .error e => .error e

/-- Observer of the sequential loop: the input map that the child at the
given position receives, or none when that child is never invoked (hard
error or break before it, or position out of range). Replays exactly the
threading of runSequential. -/
def seqInputAt (boe : Bool) : List ChildAgentConfig → PromptArgs → Nat → Option PromptArgs
  | [], _, _ => none
  | _ :: _, inp, 0 => some inp
  | c :: rest, inp, i + 1 =>
    match execute_child_agent c inp with
    | .error _ => none
    | .ok r =>
      if boe && !r.success then none
      else seqInputAt boe rest (nextSeqInput inp r) i

/-- Observer of the sequential loop: the recorded outcome of the child at
the given position, or none when that child is never invoked or its
invocation is a hard error. -/
def seqResultAt (boe : Bool) : List ChildAgentConfig → PromptArgs → Nat → Option ChildAgentResult
  | [], _, _ => none
  | c :: _, inp, 0 => (execute_child_agent c inp).toOption
  | c :: rest, inp, i + 1 =>
    match execute_child_agent c inp with
    | .error _ => none
    | .ok r =>
      if boe && !r.success then none
      else seqResultAt boe rest (nextSeqInput inp r) i

/-- The recorded outcome of a child invocation that is not a hard error:
the Ok branch of execute_child_agent as a total function. The Action case
is junk, only reachable when noHardFailure fails. -/
def softResult (c : ChildAgentConfig) (inputs : PromptArgs) : ChildAgentResult :=
  match c.agent.plan inputs with
  | .ok (.Finish out) =>
    { agent_id := c.id
      output := out
      success := true
      error := none
      execution_time_ms := c.agent.runTimeMs inputs }
  | .ok .Action =>
    { agent_id := c.id
      output := ""
      success := false
      error := none
      execution_time_ms := c.agent.runTimeMs inputs }
  | .error e =>
    { agent_id := c.id
      output := "Error: " ++ e
      success := false
      error := some e
      execution_time_ms := c.agent.runTimeMs inputs }

/-- A child invocation that does not abort the run: it stays within its
timeout when one is set, does not return an Action event, and when the
child is critical its plan call does not fail. -/
def noHardFailure (c : ChildAgentConfig) (inputs : PromptArgs) : Prop :=
  (∀ t, c.timeout = some t → c.agent.runTimeMs inputs ≤ t * 1000) ∧
  c.agent.plan inputs ≠ .ok .Action ∧
  (c.critical = true → ∀ m, c.agent.plan inputs ≠ .error m)

/-- Concrete agent that always finishes with the given output at once. -/
def okAgent (out : String) : AgentHandle :=
  { plan := fun _ => .ok (.Finish out), runTimeMs := fun _ => 0 }

/-- Concrete agent whose plan call always fails with the given message. -/
def failAgent (msg : String) : AgentHandle :=
  { plan := fun _ => .error msg, runTimeMs := fun _ => 0 }

/-- Concrete agent that finishes, but only after the given number of ms. -/
def slowAgent (out : String) (ms : Nat) : AgentHandle :=
  { plan := fun _ => .ok (.Finish out), runTimeMs := fun _ => ms }

/-- Concrete one-child configuration used to evaluate the executor. -/
def oneChildCfg : TeamAgentConfig :=
  { TeamAgentConfig.default with
    child_agents := [ChildAgentConfig.new "a" (okAgent "done")] }

/-!
Theorems. Helper lemmas come first, then one theorem per claim of the
specification, each with its witness or counterexample where required.
-/

/-- Closed form of aggregate_results: it never fails, the success flag is
the conjunction of the per-result flags, and the final output joins the
per-result entries with a blank line. -/
theorem aggregate_results_closed (rs : List ChildAgentResult) :
    aggregate_results rs = .ok
      { child_results := rs
        final_output := String.intercalate "\n\n" (rs.map entryString)
        success := rs.all (fun r => r.success)
        total_execution_time_ms := 0 } := by
  unfold aggregate_results
  by_cases h : rs.all (fun r => r.success) = true
  · have hmap : rs.map (fun r => r.agent_id ++ ": " ++ r.output) = rs.map entryString := by
      apply List.map_congr_left
      intro r hr
      have hs : r.success = true := by
        have := List.all_eq_true.mp h r hr
        simpa using this
      simp [entryString, hs]
    simp [h, hmap]
  · simp [h]

/-- Claim C5: for every list of recorded child outcomes, the aggregated
success flag is the conjunction of all per-outcome success flags, and the
final output is the blank-line-separated concatenation, in production
order, of the plain entry for each successful outcome and the ERROR entry
for each failed one. -/
theorem team_aggregate_results_spec (rs : List ChildAgentResult) :
    aggregate_results rs = .ok
      { child_results := rs
        final_output := String.intercalate "\n\n"
          (rs.map (fun r =>
            if r.success then r.agent_id ++ ": " ++ r.output
            else r.agent_id ++ ": ERROR - " ++ (r.error.getD "Unknown error")))
        success := rs.all (fun r => r.success)
        total_execution_time_ms := 0 } :=
  aggregate_results_closed rs

/-- Claim C9: the dispatcher never consults max_iterations. Two
configurations that differ only in that field produce identical execution
results on every input, the validation outcome included. -/
theorem team_execute_ignores_max_iterations (cfg : TeamAgentConfig) (m : Option Int)
    (inputs : PromptArgs) (tm : Nat) :
    TeamExecutor.execute { cfg with max_iterations := m } inputs tm
        = TeamExecutor.execute cfg inputs tm ∧
    TeamAgentConfig.validate { cfg with max_iterations := m }
        = TeamAgentConfig.validate cfg := by
  cases cfg
  exact ⟨rfl, rfl⟩

/-- Claim C10: a child added through ChildAgentConfig::new is critical by
default, so its plan failure is a hard error; a configuration built from
the default has break_on_error set and a global timeout of 300 seconds
rather than none. -/
theorem team_default_policy_knobs :
    TeamAgentConfig.default.break_on_error = true ∧
    TeamAgentConfig.default.global_timeout = some 300 ∧
    TeamAgentConfig.new = TeamAgentConfig.default ∧
    (∀ id agent, (ChildAgentConfig.new id agent).critical = true) ∧
    (∀ id agent (inputs : PromptArgs) m, agent.plan inputs = .error m →
      execute_child_agent (ChildAgentConfig.new id agent) inputs = .error m) := by
  refine ⟨rfl, rfl, rfl, fun _ _ => rfl, ?_⟩
  intro id agent inputs m h
  simp [execute_child_agent, ChildAgentConfig.new, h]

/-- Witness for C10: a default-constructed child with a failing agent
propagates the failure as a hard error. -/
theorem team_default_policy_knobs_witness :
    execute_child_agent (ChildAgentConfig.new "a" (failAgent "boom")) [] = .error "boom" :=
  team_default_policy_knobs.2.2.2.2 "a" (failAgent "boom") [] "boom" rfl

/-- Claim C8 (amended): the total duration of every returned result is
exactly the single top-level wall-clock measurement of the call, whatever
the individual child durations were; it is therefore not a sum of child
durations, but it is only non-negative, not strictly positive, because a
sub-millisecond call measures 0 whole milliseconds. -/
theorem team_total_duration_is_top_level_measurement (cfg : TeamAgentConfig)
    (inputs : PromptArgs) (tm : Nat) (res : TeamExecutionResult)
    (h : TeamExecutor.execute cfg inputs tm = .ok res) :
    res.total_execution_time_ms = tm := by
  unfold TeamExecutor.execute at h
  cases hd : TeamExecutor.dispatch cfg inputs with
  | ok r =>
    rw [hd] at h
    cases h
    rfl
  | error e =>
    rw [hd] at h
    exact Except.noConfusion h

/-- Witness for C8 (amended): the one-child configuration run with a
measured total of 5 ms reports exactly 5 ms. -/
theorem team_total_duration_is_top_level_measurement_witness :
    ({ child_results := [{ agent_id := "a", output := "done", success := true,
                           error := none, execution_time_ms := 0 }]
       final_output := "a: done"
       success := true
       total_execution_time_ms := 5 } : TeamExecutionResult).total_execution_time_ms = 5 :=
  team_total_duration_is_top_level_measurement oneChildCfg [] 5 _ rfl

/-- Counterexample for C8 as stated: a call whose top-level measurement is
0 whole milliseconds (a sub-millisecond run) returns a result whose total
duration is 0, so the total duration is not strictly positive. -/
theorem team_total_duration_zero_counterexample :
    ¬ (∀ res, TeamExecutor.execute oneChildCfg [] 0 = .ok res →
        0 < res.total_execution_time_ms) := by
  intro hall
  have h := hall
    { child_results := [{ agent_id := "a", output := "done", success := true,
                          error := none, execution_time_ms := 0 }]
      final_output := "a: done"
      success := true
      total_execution_time_ms := 0 } rfl
  exact absurd h (by decide)

/-- The HashSet loop reports the head of the tail part when everything
scanned before it is fresh and it repeats an earlier id. -/
theorem firstDupAux_eq_some (d : String) (l₂ : List String) :
    ∀ (l₁ : List String) (seen : List String), l₁.Nodup →
      (∀ x ∈ l₁, x ∉ seen) → (d ∈ l₁ ∨ d ∈ seen) →
      firstDupAux (l₁ ++ d :: l₂) seen = some d
  | [], seen, _, _, hd => by
    have hds : d ∈ seen := by
      rcases hd with h | h
      · exact absurd h (by simp)
      · exact h
    simp [firstDupAux, hds]
  | a :: t, seen, hnd, hfresh, hd => by
    have ha : a ∉ seen := hfresh a (by simp)
    have hstep : firstDupAux ((a :: t) ++ d :: l₂) seen
        = firstDupAux (t ++ d :: l₂) (a :: seen) := by
      simp [firstDupAux, ha]
    rw [hstep]
    apply firstDupAux_eq_some d l₂ t (a :: seen) hnd.of_cons
    · intro x hx
      simp only [List.mem_cons]
      push_neg
      exact ⟨fun hxa => (List.nodup_cons.mp hnd).1 (hxa ▸ hx), hfresh x (by simp [hx])⟩
    · rcases hd with h | h
      · rcases List.mem_cons.mp h with h | h
        · right
          simp [h]
        · left
          exact h
      · right
        simp [h]

/-- A duplicate-free id list passes the HashSet loop. -/
theorem firstDupAux_eq_none :
    ∀ (l : List String) (seen : List String), l.Nodup →
      (∀ x ∈ l, x ∉ seen) → firstDupAux l seen = none
  | [], _, _, _ => rfl
  | a :: t, seen, hnd, hfresh => by
    have ha : a ∉ seen := hfresh a (by simp)
    have hstep : firstDupAux (a :: t) seen = firstDupAux t (a :: seen) := by
      simp [firstDupAux, ha]
    rw [hstep]
    apply firstDupAux_eq_none t (a :: seen) hnd.of_cons
    intro x hx
    simp only [List.mem_cons]
    push_neg
    exact ⟨fun hxa => (List.nodup_cons.mp hnd).1 (hxa ▸ hx), hfresh x (by simp [hx])⟩

/-- Claim C6: validate rejects an empty children list with its named
error, and on a duplicate id it fails at the first id that repeats an
earlier one, naming that id. Determinism and freedom from side effects
hold by construction: validate is a plain function of the configuration. -/
theorem team_validate_empty_and_first_duplicate (cfg : TeamAgentConfig) :
    (cfg.child_agents = [] →
      cfg.validate = .error "Team agent must have at least one child agent") ∧
    (∀ l₁ d l₂, cfg.child_agents.map (fun c => c.id) = l₁ ++ d :: l₂ →
      l₁.Nodup → d ∈ l₁ →
      cfg.validate = .error ("Duplicate agent ID: " ++ d)) := by
  constructor
  · intro h
    simp [TeamAgentConfig.validate, h]
  · intro l₁ d l₂ hmap hnd hdm
    have hne : cfg.child_agents ≠ [] := by
      intro h0
      rw [h0] at hmap
      exact absurd hmap.symm (by simp)
    have hfd : firstDup (cfg.child_agents.map (fun c => c.id)) = some d := by
      rw [hmap]
      exact firstDupAux_eq_some d l₂ l₁ [] hnd (by simp) (Or.inl hdm)
    have hempty : cfg.child_agents.isEmpty = false := by
      simpa [List.isEmpty_iff] using hne
    simp [TeamAgentConfig.validate, hempty, hfd]

/-- Witness for C6: a team with children a, b, a fails validation at the
second a, naming it. -/
theorem team_validate_empty_and_first_duplicate_witness :
    TeamAgentConfig.validate
      { TeamAgentConfig.default with
        child_agents := [ChildAgentConfig.new "a" (okAgent "x"),
                         ChildAgentConfig.new "b" (okAgent "y"),
                         ChildAgentConfig.new "a" (okAgent "z")] }
      = .error "Duplicate agent ID: a" :=
  (team_validate_empty_and_first_duplicate _).2 ["a", "b"] "a" [] rfl
    (by decide) (by decide)

/-- try_join_all fails as soon as the launched list contains a failure. -/
theorem collectExcept_error_of_mem {α : Type} {e : String} :
    ∀ {xs : List (Except String α)}, Except.error e ∈ xs →
      ∃ e2, collectExcept xs = .error e2
  | [], h => absurd h (by simp)
  | .error e1 :: _, _ => ⟨e1, rfl⟩
  | .ok a :: rest, h => by
    have hrest : Except.error e ∈ rest := by
      rcases List.mem_cons.mp h with h1 | h1
      · exact Except.noConfusion h1
      · exact h1
    obtain ⟨e2, he2⟩ := collectExcept_error_of_mem hrest
    exact ⟨e2, by simp [collectExcept, he2]⟩

/-- try_join_all collects every result in launch order when every launched
invocation succeeds. -/
theorem collectExcept_map_ok {α β : Type} (f : α → Except String β) (g : α → β) :
    ∀ (l : List α), (∀ x ∈ l, f x = .ok (g x)) →
      collectExcept (l.map f) = .ok (l.map g)
  | [], _ => rfl
  | a :: t, h => by
    have ha : f a = .ok (g a) := h a (by simp)
    have ht := collectExcept_map_ok f g t (fun x hx => h x (by simp [hx]))
    simp [collectExcept, ha, ht]

/-- A hard error of any member of the fan-out makes the whole Concurrent
routine fail, whether or not a global timeout is configured. -/
theorem execute_concurrent_error_of_child_error (cfg : TeamAgentConfig)
    (inputs : PromptArgs) (c : ChildAgentConfig) (e : String)
    (hc : c ∈ cfg.child_agents) (he : execute_child_agent c inputs = .error e) :
    ∃ e2, TeamExecutor.execute_concurrent cfg inputs = .error e2 := by
  have hmem : Except.error e ∈ cfg.child_agents.map (fun c2 => execute_child_agent c2 inputs) := by
    rw [← he]
    exact List.mem_map_of_mem _ hc
  obtain ⟨e2, he2⟩ := collectExcept_error_of_mem hmem
  unfold TeamExecutor.execute_concurrent
  cases hg : cfg.global_timeout with
  | none =>
    exact ⟨e2, by simp [he2]⟩
  | some g =>
    by_cases hb : batchTimeMs cfg.child_agents inputs > g * 1000
    · exact ⟨"Global timeout exceeded", by simp [hb]⟩
    · exact ⟨e2, by simp [hb, he2]⟩

/-- An error of the dispatched routine is an error of execute. -/
theorem execute_error_of_dispatch_error (cfg : TeamAgentConfig) (inputs : PromptArgs)
    (tm : Nat) (e : String) (h : TeamExecutor.dispatch cfg inputs = .error e) :
    TeamExecutor.execute cfg inputs tm = .error e := by
  unfold TeamExecutor.execute
  rw [h]

/-- Under the Concurrent pattern the dispatch is the Concurrent routine. -/
theorem dispatch_concurrent (cfg : TeamAgentConfig) (inputs : PromptArgs)
    (hp : cfg.execution_pattern = .Concurrent) :
    TeamExecutor.dispatch cfg inputs = TeamExecutor.execute_concurrent cfg inputs := by
  unfold TeamExecutor.dispatch
  rw [hp]

/-- Claim C4: a child whose single invocation takes longer than its
configured timeout yields a hard error naming the child id and the
configured duration, for either setting of the critical flag; and in a
Concurrent team containing such a child, execute itself returns an error
rather than a result. -/
theorem team_child_timeout_hard_error (c : ChildAgentConfig) (inputs : PromptArgs)
    (t : Nat) (ht : c.timeout = some t)
    (hrun : c.agent.runTimeMs inputs > t * 1000) :
    (∀ b : Bool, execute_child_agent { c with critical := b } inputs
      = .error ("Agent " ++ c.id ++ " timed out after " ++ toString t ++ " seconds")) ∧
    (∀ cfg : TeamAgentConfig, ∀ tm : Nat,
      cfg.execution_pattern = .Concurrent → c ∈ cfg.child_agents →
      ∃ e, TeamExecutor.execute cfg inputs tm = .error e) := by
  have hinv : ∀ b : Bool, execute_child_agent { c with critical := b } inputs
      = .error ("Agent " ++ c.id ++ " timed out after " ++ toString t ++ " seconds") := by
    intro b
    simp [execute_child_agent, ht, hrun]
  refine ⟨hinv, ?_⟩
  intro cfg tm hp hc
  have hself : execute_child_agent c inputs
      = .error ("Agent " ++ c.id ++ " timed out after " ++ toString t ++ " seconds") :=
    hinv c.critical
  obtain ⟨e2, he2⟩ := execute_concurrent_error_of_child_error cfg inputs c _ hc hself
  exact ⟨e2, execute_error_of_dispatch_error cfg inputs tm e2
    (by rw [dispatch_concurrent cfg inputs hp]; exact he2)⟩

/-- Witness for C4: a child that needs 2500 ms against a 2 second timeout
is reported as timed out by name, and a Concurrent team containing it
fails as a whole. -/
theorem team_child_timeout_hard_error_witness :
    (execute_child_agent
        { ChildAgentConfig.new "slow" (slowAgent "late" 2500) with
          timeout := some 2, critical := false } []
      = .error "Agent slow timed out after 2 seconds") ∧
    (∃ e, TeamExecutor.execute
        { TeamAgentConfig.default with
          execution_pattern := .Concurrent
          global_timeout := none
          child_agents := [{ ChildAgentConfig.new "slow" (slowAgent "late" 2500) with
                             timeout := some 2 }] } [] 9
      = .error e) := by
  constructor
  · exact (team_child_timeout_hard_error
      { ChildAgentConfig.new "slow" (slowAgent "late" 2500) with timeout := some 2 }
      [] 2 rfl (by decide)).1 false
  · exact (team_child_timeout_hard_error
      { ChildAgentConfig.new "slow" (slowAgent "late" 2500) with timeout := some 2 }
      [] 2 rfl (by decide)).2 _ 9 rfl (by simp)

/-- A child invocation with no hard failure returns its recorded outcome. -/
theorem execute_child_agent_ok_of_noHardFailure (c : ChildAgentConfig)
    (inputs : PromptArgs) (h : noHardFailure c inputs) :
    execute_child_agent c inputs = .ok (softResult c inputs) := by
  obtain ⟨htime, hact, hcrit⟩ := h
  have hinner : (match c.agent.plan inputs with
      | .ok (.Finish out) =>
        Except.ok { agent_id := c.id, output := out, success := true,
                    error := none, execution_time_ms := c.agent.runTimeMs inputs }
      | .ok .Action =>
        Except.error "Child agent returned Action instead of Finish"
      | .error e =>
        if c.critical then Except.error e
        else Except.ok { agent_id := c.id, output := "Error: " ++ e, success := false,
                         error := some e, execution_time_ms := c.agent.runTimeMs inputs })
      = Except.ok (softResult c inputs) := by
    cases hp : c.agent.plan inputs with
    | ok ev =>
      cases ev with
      | Finish out => simp [softResult, hp]
      | Action => exact absurd hp hact
    | error m =>
      cases hc : c.critical with
      | true => exact absurd hp (hcrit hc m)
      | false => simp [softResult, hp, hc]
  unfold execute_child_agent
  cases htc : c.timeout with
  | none => exact hinner
  | some t =>
    have := htime t htc
    have hno : ¬ c.agent.runTimeMs inputs > t * 1000 := by omega
    simp only [hno, if_false]
    exact hinner

/-- Claim C1: in a Concurrent team, a failing critical child makes execute
return an error, so no aggregate result is produced; the same failure on a
non-critical child is recorded as an outcome with success false whose
ERROR entry, naming the child, appears in the final output, and the call
still returns a result. -/
theorem team_concurrent_critical_vs_soft (cfg : TeamAgentConfig) (inputs : PromptArgs)
    (tm : Nat) (c : ChildAgentConfig) (m : String)
    (hp : cfg.execution_pattern = .Concurrent) (hc : c ∈ cfg.child_agents) :
    (c.critical = true → c.agent.plan inputs = .error m →
      ∃ e, TeamExecutor.execute cfg inputs tm = .error e) ∧
    ((∀ c2 ∈ cfg.child_agents, noHardFailure c2 inputs) →
     (∀ g, cfg.global_timeout = some g → batchTimeMs cfg.child_agents inputs ≤ g * 1000) →
     c.critical = false → c.agent.plan inputs = .error m →
      ∃ res, TeamExecutor.execute cfg inputs tm = .ok res ∧
        softResult c inputs ∈ res.child_results ∧
        (softResult c inputs).success = false ∧
        (softResult c inputs).error = some m ∧
        res.final_output = String.intercalate "\n\n" (res.child_results.map entryString) ∧
        (c.id ++ ": ERROR - " ++ m) ∈ res.child_results.map entryString) := by
  constructor
  · intro hcrit hplan
    have hchild : ∃ e0, execute_child_agent c inputs = .error e0 := by
      unfold execute_child_agent
      cases htc : c.timeout with
      | none => exact ⟨m, by simp [hplan, hcrit]⟩
      | some t =>
        by_cases hr : c.agent.runTimeMs inputs > t * 1000
        · exact ⟨"Agent " ++ c.id ++ " timed out after " ++ toString t ++ " seconds",
            by simp [hr]⟩
        · exact ⟨m, by simp [hr, hplan, hcrit]⟩
    obtain ⟨e0, he0⟩ := hchild
    obtain ⟨e2, he2⟩ := execute_concurrent_error_of_child_error cfg inputs c e0 hc he0
    exact ⟨e2, execute_error_of_dispatch_error cfg inputs tm e2
      (by rw [dispatch_concurrent cfg inputs hp]; exact he2)⟩
  · intro hall hg hcritf hplan
    have hcol : collectExcept (cfg.child_agents.map (fun c2 => execute_child_agent c2 inputs))
        = .ok (cfg.child_agents.map (fun c2 => softResult c2 inputs)) :=
      collectExcept_map_ok _ _ cfg.child_agents
        (fun x hx => execute_child_agent_ok_of_noHardFailure x inputs (hall x hx))
    have hconc : TeamExecutor.execute_concurrent cfg inputs
        = aggregate_results (cfg.child_agents.map (fun c2 => softResult c2 inputs)) := by
      unfold TeamExecutor.execute_concurrent
      cases hgt : cfg.global_timeout with
      | none => simp [hcol]
      | some g =>
        have := hg g hgt
        have hno : ¬ batchTimeMs cfg.child_agents inputs > g * 1000 := by omega
        simp [hno, hcol]
    rw [aggregate_results_closed] at hconc
    refine ⟨{ child_results := cfg.child_agents.map (fun c2 => softResult c2 inputs)
              final_output := String.intercalate "\n\n"
                ((cfg.child_agents.map (fun c2 => softResult c2 inputs)).map entryString)
              success := (cfg.child_agents.map (fun c2 => softResult c2 inputs)).all
                (fun r => r.success)
              total_execution_time_ms := tm }, ?_, ?_, ?_, ?_, ?_, ?_⟩
    · unfold TeamExecutor.execute
      rw [dispatch_concurrent cfg inputs hp, hconc]
    · exact List.mem_map_of_mem _ hc
    · simp [softResult, hplan]
    · simp [softResult, hplan]
    · rfl
    · exact List.mem_map.mpr ⟨softResult c inputs, List.mem_map_of_mem _ hc,
        by simp [entryString, softResult, hplan]⟩

/-- Witness for C1: a Concurrent team of one succeeding child a and one
failing non-critical child b still returns a result recording the failure
of b, while a Concurrent team of one failing critical child fails. -/
theorem team_concurrent_critical_vs_soft_witness :
    (∃ res, TeamExecutor.execute
        { TeamAgentConfig.default with
          execution_pattern := .Concurrent
          global_timeout := none
          child_agents := [ChildAgentConfig.new "a" (okAgent "x"),
                           { ChildAgentConfig.new "b" (failAgent "boom") with
                             critical := false }] } [] 4 = .ok res ∧
      softResult { ChildAgentConfig.new "b" (failAgent "boom") with
                   critical := false } [] ∈ res.child_results ∧
      (softResult { ChildAgentConfig.new "b" (failAgent "boom") with
                    critical := false } []).success = false ∧
      (softResult { ChildAgentConfig.new "b" (failAgent "boom") with
                    critical := false } []).error = some "boom" ∧
      res.final_output = String.intercalate "\n\n" (res.child_results.map entryString) ∧
      ("b" ++ ": ERROR - " ++ "boom") ∈ res.child_results.map entryString) ∧
    (∃ e, TeamExecutor.execute
        { TeamAgentConfig.default with
          execution_pattern := .Concurrent
          global_timeout := none
          child_agents := [ChildAgentConfig.new "c" (failAgent "bad")] } [] 3
      = .error e) := by
  constructor
  · apply (team_concurrent_critical_vs_soft _ [] 4
      { ChildAgentConfig.new "b" (failAgent "boom") with critical := false } "boom"
      rfl (List.mem_cons_of_mem _ (List.mem_cons_self _ _))).2
    · intro c2 hc2
      rcases List.mem_cons.mp hc2 with h | h
      · subst h
        refine ⟨?_, ?_, ?_⟩
        · intro t ht
          exact absurd ht (by simp [ChildAgentConfig.new])
        · simp [ChildAgentConfig.new, okAgent]
        · intro _ m2
          simp [ChildAgentConfig.new, okAgent]
      · rcases List.mem_cons.mp h with h1 | h1
        · subst h1
          refine ⟨?_, ?_, ?_⟩
          · intro t ht
            exact absurd ht (by simp [ChildAgentConfig.new])
          · simp [ChildAgentConfig.new, failAgent]
          · intro hcr
            exact absurd hcr (by simp [ChildAgentConfig.new])
        · exact absurd h1 (by simp)
    · intro g hgg
      exact absurd hgg (by simp)
    · rfl
    · rfl
  · exact (team_concurrent_critical_vs_soft _ [] 3
      (ChildAgentConfig.new "c" (failAgent "bad")) "bad"
      rfl (List.mem_cons_self _ _)).1 rfl rfl

/-- Looking up the threaded map: the two derived keys are found first,
every other key falls through to the previous map. -/
theorem lookup_nextSeqInput (inp : PromptArgs) (r : ChildAgentResult) (k : String) :
    lookupA (nextSeqInput inp r) k =
      if k = "previous_agent_id" then some (.vStr r.agent_id)
      else if k = "previous_agent_output" then some (.vStr r.output)
      else lookupA inp k := by
  unfold nextSeqInput insertA
  by_cases h1 : k = "previous_agent_id"
  · subst h1
    simp [lookupA]
  · by_cases h2 : k = "previous_agent_output"
    · subst h2
      have hne : ("previous_agent_id" : String) ≠ "previous_agent_output" := by decide
      simp [lookupA, hne, h1]
    · have g1 : ("previous_agent_id" : String) ≠ k := fun h => h1 h.symm
      have g2 : ("previous_agent_output" : String) ≠ k := fun h => h2 h.symm
      simp [lookupA, g1, g2, h1, h2]

/-- Whenever child i produces a recorded outcome and child i+1 is invoked,
the map child i+1 receives is the original map augmented with exactly the
two derived keys carrying the outcome of child i. -/
theorem seqInputAt_lookup (boe : Bool) :
    ∀ (i : Nat) (children : List ChildAgentConfig) (inputs : PromptArgs)
      (r : ChildAgentResult) (inp2 : PromptArgs),
      seqResultAt boe children inputs i = some r →
      seqInputAt boe children inputs (i + 1) = some inp2 →
      ∀ k, lookupA inp2 k =
        if k = "previous_agent_id" then some (.vStr r.agent_id)
        else if k = "previous_agent_output" then some (.vStr r.output)
        else lookupA inputs k := by
  intro i
  induction i with
  | zero =>
    intro children inputs r inp2 hr hi k
    cases children with
    | nil => simp [seqResultAt] at hr
    | cons c rest =>
      have hex : execute_child_agent c inputs = .ok r := by
        cases hce : execute_child_agent c inputs with
        | ok r2 =>
          simp only [seqResultAt, hce, Except.toOption] at hr
          obtain rfl : r2 = r := Option.some.inj hr
          rfl
        | error e => simp [seqResultAt, hce, Except.toOption] at hr
      simp only [seqInputAt, hex] at hi
      cases hgd : (boe && !r.success) with
      | true => rw [hgd] at hi; simp at hi
      | false =>
        rw [hgd] at hi
        simp only [Bool.false_eq_true, if_false] at hi
        cases rest with
        | nil => simp [seqInputAt] at hi
        | cons c2 rest2 =>
          simp only [seqInputAt] at hi
          cases hi
          exact lookup_nextSeqInput inputs r k
  | succ i ih =>
    intro children inputs r inp2 hr hi k
    cases children with
    | nil => simp [seqResultAt] at hr
    | cons c rest =>
      simp only [seqResultAt] at hr
      simp only [seqInputAt] at hi
      cases hce : execute_child_agent c inputs with
      | error e => simp [hce] at hr
      | ok r0 =>
        simp only [hce] at hr hi
        cases hgd : (boe && !r0.success) with
        | true => rw [hgd] at hr; simp at hr
        | false =>
          rw [hgd] at hr hi
          simp only [Bool.false_eq_true, if_false] at hr hi
          have hrec := ih rest (nextSeqInput inputs r0) r inp2 hr hi k
          rw [hrec]
          by_cases h1 : k = "previous_agent_id"
          · simp [h1]
          · by_cases h2 : k = "previous_agent_output"
            · simp [h1, h2]
            · simp only [h1, h2, if_false]
              rw [lookup_nextSeqInput]
              simp [h1, h2]

/-- With break_on_error set, once some child records a failed outcome, no
child at a later position is ever invoked. -/
theorem seqResultAt_none_after_failure :
    ∀ (i : Nat) (children : List ChildAgentConfig) (inputs : PromptArgs)
      (r : ChildAgentResult) (j : Nat),
      seqResultAt true children inputs i = some r → r.success = false →
      i < j → seqResultAt true children inputs j = none := by
  intro i
  induction i with
  | zero =>
    intro children inputs r j hr hfail hij
    cases children with
    | nil => simp [seqResultAt] at hr
    | cons c rest =>
      have hex : execute_child_agent c inputs = .ok r := by
        cases hce : execute_child_agent c inputs with
        | ok r2 =>
          simp only [seqResultAt, hce, Except.toOption] at hr
          obtain rfl : r2 = r := Option.some.inj hr
          rfl
        | error e => simp [seqResultAt, hce, Except.toOption] at hr
      cases j with
      | zero => omega
      | succ j1 =>
        simp only [seqResultAt, hex, hfail]
        simp
  | succ i ih =>
    intro children inputs r j hr hfail hij
    cases children with
    | nil => simp [seqResultAt] at hr
    | cons c rest =>
      simp only [seqResultAt] at hr
      cases hce : execute_child_agent c inputs with
      | error e => simp [hce] at hr
      | ok r0 =>
        simp only [hce] at hr
        cases hgd : (true && !r0.success) with
        | true => rw [hgd] at hr; simp at hr
        | false =>
          rw [hgd] at hr
          simp only [Bool.false_eq_true, if_false] at hr
          cases j with
          | zero => omega
          | succ j1 =>
            simp only [seqResultAt, hce, hgd]
            simp only [Bool.false_eq_true, if_false]
            exact ih rest (nextSeqInput inputs r0) r j1 hr hfail (by omega)

/-- The outcome list returned by the sequential loop agrees position by
position with the trace observer: a position absent from the trace is
absent from the outcomes. -/
theorem runSequential_get (boe : Bool) :
    ∀ (children : List ChildAgentConfig) (inputs : PromptArgs)
      (rs : List ChildAgentResult),
      runSequential boe children inputs = .ok rs →
      ∀ j, rs.get? j = seqResultAt boe children inputs j := by
  intro children
  induction children with
  | nil =>
    intro inputs rs h j
    simp only [runSequential] at h
    cases h
    simp [seqResultAt]
  | cons c rest ih =>
    intro inputs rs h j
    simp only [runSequential] at h
    cases hce : execute_child_agent c inputs with
    | error e => simp [hce] at h
    | ok r =>
      simp only [hce] at h
      cases hgd : (boe && !r.success) with
      | true =>
        rw [hgd] at h
        simp only [if_true] at h
        cases h
        cases j with
        | zero => simp [seqResultAt, hce, Except.toOption]
        | succ j1 =>
          simp only [seqResultAt, hce, hgd]
          simp
      | false =>
        rw [hgd] at h
        simp only [Bool.false_eq_true, if_false] at h
        cases hrec : runSequential boe rest (nextSeqInput inputs r) with
        | error e => simp [hrec] at h
        | ok rs2 =>
          simp only [hrec] at h
          cases h
          cases j with
          | zero => simp [seqResultAt, hce, Except.toOption]
          | succ j1 =>
            simp only [seqResultAt, hce, hgd]
            simp only [Bool.false_eq_true, if_false]
            simpa using ih (nextSeqInput inputs r) rs2 hrec j1

/-- Claim C2: in the Sequential pattern, every invoked child after the
first receives the original input map augmented with exactly the two
derived keys holding the previous recorded outcome (its raw output and its
id), every other key reading as in the original map; and with
break_on_error set, once an outcome records success false, no later child
is invoked and no later position appears among the returned outcomes. -/
theorem team_sequential_context_and_break (boe : Bool)
    (children : List ChildAgentConfig) (inputs : PromptArgs) :
    (∀ i r inp2, seqResultAt boe children inputs i = some r →
      seqInputAt boe children inputs (i + 1) = some inp2 →
      ∀ k, lookupA inp2 k =
        if k = "previous_agent_id" then some (.vStr r.agent_id)
        else if k = "previous_agent_output" then some (.vStr r.output)
        else lookupA inputs k) ∧
    (boe = true → ∀ i r j, seqResultAt true children inputs i = some r →
      r.success = false → i < j → seqResultAt true children inputs j = none) ∧
    (∀ rs, runSequential boe children inputs = .ok rs →
      ∀ j, rs.get? j = seqResultAt boe children inputs j) := by
  refine ⟨?_, ?_, ?_⟩
  · intro i r inp2 hr hi k
    exact seqInputAt_lookup boe i children inputs r inp2 hr hi k
  · intro _ i r j hr hf hij
    exact seqResultAt_none_after_failure i children inputs r j hr hf hij
  · intro rs h j
    exact runSequential_get boe children inputs rs h j

/-- Witness for C2: in the two-child Sequential team a then b, b reads the
output HI of a under the previous-output key; and when child a fails
non-critically with break_on_error set, position 1 is never invoked. -/
theorem team_sequential_context_and_break_witness :
    lookupA (nextSeqInput []
        { agent_id := "a", output := "HI", success := true,
          error := none, execution_time_ms := 0 }) "previous_agent_output"
      = some (.vStr "HI") ∧
    seqResultAt true
      [{ ChildAgentConfig.new "a" (failAgent "boom") with critical := false },
       ChildAgentConfig.new "b" (okAgent "x")] [] 1 = none := by
  constructor
  · exact (team_sequential_context_and_break true
      [ChildAgentConfig.new "a" (okAgent "HI"), ChildAgentConfig.new "b" (okAgent "IH")]
      []).1 0
      { agent_id := "a", output := "HI", success := true,
        error := none, execution_time_ms := 0 }
      _ rfl rfl "previous_agent_output"
  · exact (team_sequential_context_and_break true
      [{ ChildAgentConfig.new "a" (failAgent "boom") with critical := false },
       ChildAgentConfig.new "b" (okAgent "x")]
      []).2.1 rfl 0
      { agent_id := "a", output := "Error: " ++ "boom", success := false,
        error := some "boom", execution_time_ms := 0 }
      1 rfl rfl (by omega)

/-- charDigit undoes Nat.digitChar on decimal digits. -/
theorem charDigit_digitChar : ∀ d < 10, charDigit (Nat.digitChar d) = d := by decide

/-- Mapping digitChar over lists of decimal digits is injective. -/
theorem map_digitChar_inj : ∀ {l₁ l₂ : List Nat}, (∀ d ∈ l₁, d < 10) → (∀ d ∈ l₂, d < 10) →
    l₁.map Nat.digitChar = l₂.map Nat.digitChar → l₁ = l₂
  | [], [], _, _, _ => rfl
  | [], _ :: _, _, _, h => by simp at h
  | _ :: _, [], _, _, h => by simp at h
  | a :: l₁, b :: l₂, h₁, h₂, h => by
    simp only [List.map_cons, List.cons.injEq] at h
    have ha : charDigit (Nat.digitChar a) = a := charDigit_digitChar a (h₁ a (by simp))
    have hb : charDigit (Nat.digitChar b) = b := charDigit_digitChar b (h₂ b (by simp))
    have hab : a = b := by rw [← ha, ← hb, h.1]
    have : l₁ = l₂ :=
      map_digitChar_inj (fun d hd => h₁ d (by simp [hd])) (fun d hd => h₂ d (by simp [hd])) h.2
    simp [hab, this]

/-- Every reversed decimal digit of a number is below 10. -/
theorem digits_rev_lt (n : Nat) : ∀ d ∈ (Nat.digits 10 n).reverse, d < 10 := by
  intro d hd
  exact Nat.digits_lt_base (by norm_num) (List.mem_reverse.mp hd)

/-- The rendering of a positive number is never the digit string 0. -/
theorem natRepr_pos_ne_zero_string {n : Nat} (hn : n ≠ 0)
    (h : "0" = ((Nat.digits 10 n).reverse.map Nat.digitChar).asString) : False := by
  have hlist : ['0'] = (Nat.digits 10 n).reverse.map Nat.digitChar := by
    have := congrArg String.data h
    simpa [List.asString] using this
  have hrev : ([0] : List Nat) = (Nat.digits 10 n).reverse :=
    map_digitChar_inj (by decide) (digits_rev_lt n) hlist
  have hd : Nat.digits 10 n = [0] := by
    have := congrArg List.reverse hrev
    simpa using this.symm
  have := Nat.ofDigits_digits 10 n
  rw [hd] at this
  simp [Nat.ofDigits] at this
  omega

/-- Decimal rendering is injective. -/
theorem natRepr_inj : ∀ {m n : Nat}, natRepr m = natRepr n → m = n := by
  intro m n h
  unfold natRepr at h
  split_ifs at h with hm hn hn
  · omega
  · exact absurd (natRepr_pos_ne_zero_string hn h) (by simp)
  · exact absurd (natRepr_pos_ne_zero_string hm h.symm) (by simp)
  · have hlist : (Nat.digits 10 m).reverse.map Nat.digitChar
        = (Nat.digits 10 n).reverse.map Nat.digitChar := by
      have := congrArg String.data h
      simpa [List.asString] using this
    have hrev := map_digitChar_inj (digits_rev_lt m) (digits_rev_lt n) hlist
    have hdig : Nat.digits 10 m = Nat.digits 10 n := by
      have := congrArg List.reverse hrev
      simpa using this
    have h1 := Nat.ofDigits_digits 10 m
    rw [hdig, Nat.ofDigits_digits 10 n] at h1
    exact h1.symm

/-- Distinct step indices produce distinct injection keys. -/
theorem depKey_inj {a b : Nat} (h : depKey a = depKey b) : a = b := by
  apply natRepr_inj
  unfold depKey at h
  have hd := congrArg String.data h
  simp only [String.data_append, List.append_assoc] at hd
  have h1 := List.append_cancel_left hd
  have h2 := List.append_cancel_right h1
  exact String.ext h2

/-- One unfolding step of the dependency-injection fold. -/
theorem hybridStepInput_cons (inputs : PromptArgs) (stepOutputs : List (List ChildAgentResult))
    (dep : Nat) (rest : List Nat) :
    hybridStepInput inputs stepOutputs (dep :: rest)
      = hybridStepInput
          (match stepOutputs.get? dep with
           | some rs => insertA inputs (depKey dep)
               (.vPairs (rs.map (fun r => (r.agent_id, r.output))))
           | none => inputs) stepOutputs rest := rfl

/-- Keys untouched by the dependency-injection fold read as in the map the
fold started from. -/
theorem hybridStepInput_lookup_other (stepOutputs : List (List ChildAgentResult)) (k : String) :
    ∀ (deps : List Nat) (inputs : PromptArgs),
      (∀ dep ∈ deps, depKey dep ≠ k) →
      lookupA (hybridStepInput inputs stepOutputs deps) k = lookupA inputs k
  | [], _, _ => rfl
  | dep :: rest, inputs, h => by
    have hdep : depKey dep ≠ k := h dep (by simp)
    have hrest : ∀ d ∈ rest, depKey d ≠ k := fun d hd => h d (by simp [hd])
    rw [hybridStepInput_cons]
    cases hso : stepOutputs.get? dep with
    | none =>
      simp only [hso]
      exact hybridStepInput_lookup_other stepOutputs k rest inputs hrest
    | some rs =>
      simp only [hso]
      have := hybridStepInput_lookup_other stepOutputs k rest
        (insertA inputs (depKey dep) (.vPairs (rs.map (fun r => (r.agent_id, r.output))))) hrest
      rw [this]
      simp [insertA, lookupA, hdep]

/-- A declared dependency with recorded results is always readable, under
its scoped key, as the full list of id and output pairs of that step. -/
theorem hybridStepInput_lookup_dep (stepOutputs : List (List ChildAgentResult)) :
    ∀ (deps : List Nat) (inputs : PromptArgs) (d : Nat) (rs : List ChildAgentResult),
      d ∈ deps → stepOutputs.get? d = some rs →
      lookupA (hybridStepInput inputs stepOutputs deps) (depKey d)
        = some (.vPairs (rs.map (fun r => (r.agent_id, r.output))))
  | [], _, d, _, hd, _ => absurd hd (by simp)
  | dep :: rest, inputs, d, rs, hd, hso => by
    rw [hybridStepInput_cons]
    by_cases hdr : d ∈ rest
    · cases hso2 : stepOutputs.get? dep with
      | none =>
        simp only [hso2]
        exact hybridStepInput_lookup_dep stepOutputs rest inputs d rs hdr hso
      | some rs2 =>
        simp only [hso2]
        exact hybridStepInput_lookup_dep stepOutputs rest
          (insertA inputs (depKey dep) (.vPairs (rs2.map (fun r => (r.agent_id, r.output)))))
          d rs hdr hso
    · have hdd : d = dep := by
        rcases List.mem_cons.mp hd with h | h
        · exact h
        · exact absurd h hdr
      subst hdd
      simp only [hso]
      have hother : ∀ d2 ∈ rest, depKey d2 ≠ depKey d := by
        intro d2 hd2 heq
        exact hdr (depKey_inj heq ▸ hd2)
      rw [hybridStepInput_lookup_other stepOutputs (depKey d) rest _ hother]
      simp [insertA, lookupA]

/-- Claim C3: before a Hybrid step runs, its agents receive, for every
declared dependency index d with recorded results, the full list of id and
output pairs of step d under the key scoped to d; and the key of any step
index outside the declared dependencies reads exactly as in the original
input map, so outputs of non-dependency steps are not injected. -/
theorem team_hybrid_dependency_injection (inputs : PromptArgs)
    (stepOutputs : List (List ChildAgentResult)) (deps : List Nat) :
    (∀ d rs, d ∈ deps → stepOutputs.get? d = some rs →
      lookupA (hybridStepInput inputs stepOutputs deps) (depKey d)
        = some (.vPairs (rs.map (fun r => (r.agent_id, r.output))))) ∧
    (∀ d2, d2 ∉ deps →
      lookupA (hybridStepInput inputs stepOutputs deps) (depKey d2)
        = lookupA inputs (depKey d2)) := by
  constructor
  · intro d rs hd hso
    exact hybridStepInput_lookup_dep stepOutputs deps inputs d rs hd hso
  · intro d2 hd2
    apply hybridStepInput_lookup_other stepOutputs (depKey d2) deps inputs
    intro dep hdep heq
    exact hd2 (depKey_inj heq ▸ hdep)

/-- Witness for C3: with step 0 recorded as one outcome of agent a, a step
depending on 0 reads that outcome list under the scoped key, while the key
of the never-declared step 1 stays absent. -/
theorem team_hybrid_dependency_injection_witness :
    lookupA (hybridStepInput []
        [[{ agent_id := "a", output := "out", success := true,
            error := none, execution_time_ms := 0 }]] [0]) (depKey 0)
      = some (.vPairs [("a", "out")]) ∧
    lookupA (hybridStepInput []
        [[{ agent_id := "a", output := "out", success := true,
            error := none, execution_time_ms := 0 }]] [0]) (depKey 1)
      = lookupA [] (depKey 1) := by
  constructor
  · exact (team_hybrid_dependency_injection []
      [[{ agent_id := "a", output := "out", success := true,
          error := none, execution_time_ms := 0 }]] [0]).1 0
      [{ agent_id := "a", output := "out", success := true,
         error := none, execution_time_ms := 0 }] (by decide) rfl
  · exact (team_hybrid_dependency_injection []
      [[{ agent_id := "a", output := "out", success := true,
          error := none, execution_time_ms := 0 }]] [0]).2 1 (by decide)

/-- The per-step check passes exactly when every id of the step names a
child and every dependency is strictly earlier than the step index. -/
theorem checkStep_ok_iff (children : List ChildAgentConfig) (idx : Nat) (step : ExecutionStep) :
    checkStep children idx step = .ok () ↔
      ((∀ id ∈ step.agent_ids, ∃ c ∈ children, c.id = id) ∧
       (∀ d ∈ step.dependencies, d < idx)) := by
  unfold checkStep
  cases hf1 : step.agent_ids.find? (fun id => !(children.any (fun c => c.id == id))) with
  | some id =>
    constructor
    · intro h
      exact Except.noConfusion h
    · rintro ⟨h1, _⟩
      exfalso
      have hmem := List.mem_of_find?_eq_some hf1
      have hpred := List.find?_some hf1
      obtain ⟨c, hc, hcid⟩ := h1 id hmem
      have hany : children.any (fun c => c.id == id) = true :=
        List.any_eq_true.mpr ⟨c, hc, by simp [hcid]⟩
      simp [hany] at hpred
  | none =>
    cases hf2 : step.dependencies.find? (fun dep => decide (dep ≥ idx)) with
    | some dep =>
      constructor
      · intro h
        exact Except.noConfusion h
      · rintro ⟨_, h2⟩
        exfalso
        have hmem := List.mem_of_find?_eq_some hf2
        have hpred := List.find?_some hf2
        have := h2 dep hmem
        simp at hpred
        omega
    | none =>
      constructor
      · intro _
        constructor
        · intro id hid
          have hnp := List.find?_eq_none.mp hf1 id hid
          simp only [Bool.not_eq_true', Bool.not_eq_false] at hnp
          obtain ⟨c, hc, hcid⟩ := List.any_eq_true.mp hnp
          exact ⟨c, hc, by simpa using hcid⟩
        · intro d hd
          have hnp := List.find?_eq_none.mp hf2 d hd
          simp at hnp
          omega
      · intro _
        rfl

/-- The coverage check passes exactly when every child id appears in some
step. -/
theorem validateCoverage_ok_iff (children : List ChildAgentConfig)
    (steps : List ExecutionStep) :
    validateCoverage children steps = .ok () ↔
      ∀ c ∈ children, ∃ s ∈ steps, c.id ∈ s.agent_ids := by
  unfold validateCoverage
  cases hf : children.find?
      (fun c => !(steps.any (fun s => s.agent_ids.any (fun id => id == c.id)))) with
  | some c =>
    constructor
    · intro h
      exact Except.noConfusion h
    · intro h
      exfalso
      have hmem := List.mem_of_find?_eq_some hf
      have hpred := List.find?_some hf
      obtain ⟨s, hs, hsid⟩ := h c hmem
      have hany : steps.any (fun s => s.agent_ids.any (fun id => id == c.id)) = true :=
        List.any_eq_true.mpr ⟨s, hs, List.any_eq_true.mpr ⟨c.id, hsid, by simp⟩⟩
      simp [hany] at hpred
  | none =>
    constructor
    · intro _ c hc
      have hnp := List.find?_eq_none.mp hf c hc
      simp only [Bool.not_eq_true', Bool.not_eq_false] at hnp
      obtain ⟨s, hs, hsid⟩ := List.any_eq_true.mp hnp
      obtain ⟨id, hid, hide⟩ := List.any_eq_true.mp hsid
      have : id = c.id := by simpa using hide
      exact ⟨s, hs, this ▸ hid⟩
    · intro _
      rfl

/-- The step loop passes exactly when every enumerated step passes its
per-step check relative to its own index. -/
theorem validateSteps_ok_iff (children : List ChildAgentConfig) :
    ∀ (steps : List ExecutionStep) (idx : Nat),
      validateSteps children idx steps = .ok () ↔
      ∀ i s, steps.get? i = some s →
        ((∀ id ∈ s.agent_ids, ∃ c ∈ children, c.id = id) ∧
         (∀ d ∈ s.dependencies, d < idx + i))
  | [], idx => by simp [validateSteps]
  | step :: rest, idx => by
    simp only [validateSteps]
    cases hcs : checkStep children idx step with
    | error e =>
      constructor
      · intro h
        exact Except.noConfusion h
      · intro h
        exfalso
        have h0 := h 0 step rfl
        have hok := (checkStep_ok_iff children idx step).mpr
          ⟨h0.1, fun d hd => by have := h0.2 d hd; omega⟩
        rw [hcs] at hok
        exact Except.noConfusion hok
    | ok u =>
      cases u
      have hcond := (checkStep_ok_iff children idx step).mp hcs
      constructor
      · intro h i s hi
        cases i with
        | zero =>
          have hs : s = step := by
            have := hi
            simp at this
            exact this.symm
          subst hs
          exact ⟨hcond.1, fun d hd => by have := hcond.2 d hd; omega⟩
        | succ i1 =>
          have hi1 : rest.get? i1 = some s := by simpa using hi
          have := ((validateSteps_ok_iff children rest (idx + 1)).mp h) i1 s hi1
          exact ⟨this.1, fun d hd => by have := this.2 d hd; omega⟩
      · intro h
        apply (validateSteps_ok_iff children rest (idx + 1)).mpr
        intro i s hi
        have := h (i + 1) s (by simpa using hi)
        exact ⟨this.1, fun d hd => by have := this.2 d hd; omega⟩

/-- An error of the per-step check names either an unknown agent id of the
step or a dependency index that is not strictly earlier. -/
theorem checkStep_error (children : List ChildAgentConfig) (idx : Nat)
    (step : ExecutionStep) (e : String) (h : checkStep children idx step = .error e) :
    (∃ id ∈ step.agent_ids, (∀ c ∈ children, c.id ≠ id) ∧
      e = "Unknown agent ID in execution step: " ++ id) ∨
    (∃ d ∈ step.dependencies, idx ≤ d ∧
      e = "Invalid dependency: step " ++ toString idx ++ " cannot depend on step "
        ++ toString d ++ " (must be earlier)") := by
  unfold checkStep at h
  cases hf1 : step.agent_ids.find? (fun id => !(children.any (fun c => c.id == id))) with
  | some id =>
    rw [hf1] at h
    left
    refine ⟨id, List.mem_of_find?_eq_some hf1, ?_, (Except.error.inj h).symm⟩
    have hpred := List.find?_some hf1
    simp only [Bool.not_eq_true'] at hpred
    intro c hc hcid
    have : children.any (fun c => c.id == id) = true :=
      List.any_eq_true.mpr ⟨c, hc, by simp [hcid]⟩
    rw [this] at hpred
    exact Bool.noConfusion hpred
  | none =>
    rw [hf1] at h
    cases hf2 : step.dependencies.find? (fun dep => decide (dep ≥ idx)) with
    | some dep =>
      rw [hf2] at h
      right
      refine ⟨dep, List.mem_of_find?_eq_some hf2, ?_, (Except.error.inj h).symm⟩
      have hpred := List.find?_some hf2
      simp at hpred
      omega
    | none =>
      rw [hf2] at h
      exact Except.noConfusion h

/-- An error of the step loop comes from some enumerated step, with the
message shaped by that step and its absolute index. -/
theorem validateSteps_error (children : List ChildAgentConfig) :
    ∀ (steps : List ExecutionStep) (idx : Nat) (e : String),
      validateSteps children idx steps = .error e →
      ∃ i s, steps.get? i = some s ∧
        ((∃ id ∈ s.agent_ids, (∀ c ∈ children, c.id ≠ id) ∧
          e = "Unknown agent ID in execution step: " ++ id) ∨
         (∃ d ∈ s.dependencies, idx + i ≤ d ∧
          e = "Invalid dependency: step " ++ toString (idx + i) ++ " cannot depend on step "
            ++ toString d ++ " (must be earlier)"))
  | [], idx, e => by
    intro h
    exact Except.noConfusion h
  | step :: rest, idx, e => by
    intro h
    simp only [validateSteps] at h
    cases hcs : checkStep children idx step with
    | error e0 =>
      rw [hcs] at h
      have he : e0 = e := Except.error.inj h
      subst he
      refine ⟨0, step, rfl, ?_⟩
      have := checkStep_error children idx step e0 hcs
      simpa using this
    | ok u =>
      cases u
      rw [hcs] at h
      obtain ⟨i, s, hi, hshape⟩ := validateSteps_error children rest (idx + 1) e h
      refine ⟨i + 1, s, by simpa using hi, ?_⟩
      have harith : idx + 1 + i = idx + (i + 1) := by omega
      rw [harith] at hshape
      exact hshape

/-- An error of the coverage check names a child covered by no step. -/
theorem validateCoverage_error (children : List ChildAgentConfig)
    (steps : List ExecutionStep) (e : String)
    (h : validateCoverage children steps = .error e) :
    ∃ c ∈ children, (∀ s ∈ steps, c.id ∉ s.agent_ids) ∧
      e = "Agent " ++ c.id ++ " is not included in any execution step" := by
  unfold validateCoverage at h
  cases hf : children.find?
      (fun c => !(steps.any (fun s => s.agent_ids.any (fun id => id == c.id)))) with
  | some c =>
    rw [hf] at h
    refine ⟨c, List.mem_of_find?_eq_some hf, ?_, (Except.error.inj h).symm⟩
    have hpred := List.find?_some hf
    simp only [Bool.not_eq_true'] at hpred
    intro s hs hsid
    have : steps.any (fun s => s.agent_ids.any (fun id => id == c.id)) = true :=
      List.any_eq_true.mpr ⟨s, hs, List.any_eq_true.mpr ⟨c.id, hsid, by simp⟩⟩
    rw [this] at hpred
    exact Bool.noConfusion hpred
  | none =>
    rw [hf] at h
    exact Except.noConfusion h

/-- For a nonempty, duplicate-free Hybrid configuration, validate reduces
to the step checks followed by the coverage check. -/
theorem validate_hybrid_reduce (cfg : TeamAgentConfig) (steps : List ExecutionStep)
    (hp : cfg.execution_pattern = .Hybrid steps) (hne : cfg.child_agents ≠ [])
    (hnd : (cfg.child_agents.map (fun c => c.id)).Nodup) :
    cfg.validate =
      match validateSteps cfg.child_agents 0 steps with
      | .error e => .error e
      | .ok _ => validateCoverage cfg.child_agents steps := by
  have hempty : cfg.child_agents.isEmpty = false := by
    simpa [List.isEmpty_iff] using hne
  have hfd : firstDup (cfg.child_agents.map (fun c => c.id)) = none :=
    firstDupAux_eq_none _ [] hnd (by simp)
  unfold TeamAgentConfig.validate
  simp [hempty, hfd, hp]

/-- Claim C7: on a nonempty, duplicate-free Hybrid configuration, validate
succeeds exactly when every step id names a child, every dependency index
is strictly below its step index, and every child is covered by some step;
and every validation error names an offending id or step of one of those
three kinds. -/
theorem team_validate_hybrid_characterization (cfg : TeamAgentConfig)
    (steps : List ExecutionStep)
    (hp : cfg.execution_pattern = .Hybrid steps)
    (hne : cfg.child_agents ≠ [])
    (hnd : (cfg.child_agents.map (fun c => c.id)).Nodup) :
    (cfg.validate = .ok () ↔
      ((∀ s ∈ steps, ∀ id ∈ s.agent_ids, ∃ c ∈ cfg.child_agents, c.id = id) ∧
       (∀ i s, steps.get? i = some s → ∀ d ∈ s.dependencies, d < i) ∧
       (∀ c ∈ cfg.child_agents, ∃ s ∈ steps, c.id ∈ s.agent_ids))) ∧
    (∀ e, cfg.validate = .error e →
      (∃ s ∈ steps, ∃ id ∈ s.agent_ids, (∀ c ∈ cfg.child_agents, c.id ≠ id) ∧
        e = "Unknown agent ID in execution step: " ++ id) ∨
      (∃ i s, steps.get? i = some s ∧ ∃ d ∈ s.dependencies, i ≤ d ∧
        e = "Invalid dependency: step " ++ toString i ++ " cannot depend on step "
          ++ toString d ++ " (must be earlier)") ∨
      (∃ c ∈ cfg.child_agents, (∀ s ∈ steps, c.id ∉ s.agent_ids) ∧
        e = "Agent " ++ c.id ++ " is not included in any execution step")) := by
  have hred := validate_hybrid_reduce cfg steps hp hne hnd
  constructor
  · rw [hred]
    cases hvs : validateSteps cfg.child_agents 0 steps with
    | error e =>
      constructor
      · intro h
        exact Except.noConfusion h
      · rintro ⟨h1, h2, _⟩
        exfalso
        have hok : validateSteps cfg.child_agents 0 steps = .ok () :=
          (validateSteps_ok_iff cfg.child_agents steps 0).mpr (fun i s hi =>
            ⟨h1 s (List.get?_mem hi), fun d hd => by have := h2 i s hi d hd; omega⟩)
        rw [hvs] at hok
        exact Except.noConfusion hok
    | ok u =>
      cases u
      have hsok := (validateSteps_ok_iff cfg.child_agents steps 0).mp hvs
      rw [validateCoverage_ok_iff]
      constructor
      · intro hcov
        refine ⟨?_, ?_, hcov⟩
        · intro s hs id hid
          obtain ⟨i, hi⟩ := List.mem_iff_get?.mp hs
          exact (hsok i s hi).1 id hid
        · intro i s hi d hd
          have := (hsok i s hi).2 d hd
          omega
      · rintro ⟨_, _, h3⟩
        exact h3
  · intro e he
    rw [hred] at he
    cases hvs : validateSteps cfg.child_agents 0 steps with
    | error e0 =>
      simp only [hvs] at he
      have he0 : e0 = e := Except.error.inj he
      subst he0
      obtain ⟨i, s, hi, hshape⟩ := validateSteps_error cfg.child_agents steps 0 e0 hvs
      rcases hshape with ⟨id, hid, hno, heq⟩ | ⟨d, hd, hle, heq⟩
      · exact Or.inl ⟨s, List.get?_mem hi, id, hid, hno, heq⟩
      · right
        left
        refine ⟨i, s, hi, d, hd, by omega, ?_⟩
        simpa using heq
    | ok u =>
      cases u
      simp only [hvs] at he
      exact Or.inr (Or.inr (validateCoverage_error cfg.child_agents steps e he))

/-- Witness for C7: a Hybrid team of children a and b whose only step
names the unknown id c fails validation, naming c. -/
theorem team_validate_hybrid_characterization_witness :
    (∃ s ∈ [({ agent_ids := ["a", "c"], concurrent := false,
               dependencies := [] } : ExecutionStep)],
      ∃ id ∈ s.agent_ids,
        (∀ c ∈ [ChildAgentConfig.new "a" (okAgent "x"),
                ChildAgentConfig.new "b" (okAgent "y")], c.id ≠ id) ∧
        "Unknown agent ID in execution step: c"
          = "Unknown agent ID in execution step: " ++ id) ∨
    (∃ i s, [({ agent_ids := ["a", "c"], concurrent := false,
                dependencies := [] } : ExecutionStep)].get? i = some s ∧
      ∃ d ∈ s.dependencies, i ≤ d ∧
        "Unknown agent ID in execution step: c"
          = "Invalid dependency: step " ++ toString i ++ " cannot depend on step "
            ++ toString d ++ " (must be earlier)") ∨
    (∃ c ∈ [ChildAgentConfig.new "a" (okAgent "x"),
            ChildAgentConfig.new "b" (okAgent "y")],
      (∀ s ∈ [({ agent_ids := ["a", "c"], concurrent := false,
                 dependencies := [] } : ExecutionStep)], c.id ∉ s.agent_ids) ∧
      "Unknown agent ID in execution step: c"
        = "Agent " ++ c.id ++ " is not included in any execution step") :=
  (team_validate_hybrid_characterization
    { TeamAgentConfig.default with
      execution_pattern := .Hybrid [{ agent_ids := ["a", "c"], concurrent := false,
                                      dependencies := [] }]
      child_agents := [ChildAgentConfig.new "a" (okAgent "x"),
                       ChildAgentConfig.new "b" (okAgent "y")] }
    [{ agent_ids := ["a", "c"], concurrent := false, dependencies := [] }]
    rfl (by simp) (by decide)).2
    "Unknown agent ID in execution step: c" rfl
